import Mathlib

/-!
Shallow embedding of `src/proof.rs` from smetamath-rs: the proof object
model for RPN proofs used in Metamath.

Modelling conventions:
* `StatementAddress` (declared in the parser module, outside this file's
  source) is opaque, equatable and hashable; it is embedded as `Nat`.
* The digest computation uses `std::hash::SipHasher` (external library
  code).  Per the spec it is a fixed-seed deterministic hash accumulator
  fed the statement identifier and then each child's cached digest; it is
  embedded as an abstract parameter `hfn : Nat → List Nat → Nat` mapping
  the statement identifier and the list of child digests to the digest.
* `HashMap<u64, usize>` is embedded as an association list
  `List (Nat × Nat)` with first-match lookup; `build` only ever inserts
  keys that are absent, so insertion is modelled as `cons`.
* Rust `Vec` indexing panics out of range; the corresponding partiality is
  made explicit with `Option`, so `build` returns
  `Option (ProofTree × ProofTreeArray)` where `none` is the panic case.
-/

set_option autoImplicit false

namespace Smetamath

/-- A tree structure for storing proofs and grammar derivations
(struct `ProofTree` in `proof.rs`): the statement address at the root,
the child trees in database order, and the precomputed hash. -/
inductive ProofTree : Type where
  | mk (address : Nat) (children : List ProofTree) (hash : Nat) : ProofTree

/-- The axiom/theorem being applied at the root (field `address`). -/
def ProofTree.address : ProofTree → Nat
  | .mk a _ _ => a

/-- The hypotheses in database order (field `children`). -/
def ProofTree.children : ProofTree → List ProofTree
  | .mk _ c _ => c

/-- The precomputed hash for this tree (private field `hash`). -/
def ProofTree.hash : ProofTree → Nat
  | .mk _ _ h => h

/-- `ProofTree::new`: create a new proof tree using the given atom and
children, computing the digest from the address and the children's cached
digests (the Rust `Hash` impl of `ProofTree` feeds only the cached `hash`
field to the hasher, so hashing the children vector feeds the child
digests, not the child substructures). -/
def ProofTree.new (hfn : Nat → List Nat → Nat) (address : Nat)
    (children : List ProofTree) : ProofTree :=
  .mk address children (hfn address (children.map ProofTree.hash))

mutual

/-- Structural equality of proof trees, translating the manual
`PartialEq for ProofTree`: addresses equal and children equal element-wise
(recursively), ignoring the cached hash. -/
def structEq : ProofTree → ProofTree → Bool
  | .mk a1 c1 _, .mk a2 c2 _ => a1 == a2 && structEqList c1 c2

/-- Element-wise structural equality of child lists (Rust `Vec` equality
under `ProofTree`'s `PartialEq`). -/
def structEqList : List ProofTree → List ProofTree → Bool
  | [], [] => true
  | t1 :: r1, t2 :: r2 => structEq t1 t2 && structEqList r1 r2
  | _, _ => false

end

mutual

/-- A tree's cached digest is the one `ProofTree::new` computes: the hash
field equals `hfn` applied to the address and the children's digests, and
recursively so for every child.  Trees produced by `ProofTree.new` from
well-formed children are well-formed. -/
def wfHash (hfn : Nat → List Nat → Nat) : ProofTree → Bool
  | .mk a c h => h == hfn a (c.map ProofTree.hash) && wfHashList hfn c

/-- `wfHash` for every member of a child list. -/
def wfHashList (hfn : Nat → List Nat → Nat) : List ProofTree → Bool
  | [] => true
  | t :: r => wfHash hfn t && wfHashList hfn r

end

/-- First-match lookup in the association list modelling
`HashMap<u64, usize>` (`self.map.get(&tree.hash).cloned()` uses the map's
own lookup). -/
def mapLookup (d : Nat) : List (Nat × Nat) → Option Nat
  | [] => none
  | (k, v) :: rest => if k = d then some v else mapLookup d rest

/-- An array of proof trees, used to collect steps of a proof in proof
order (struct `ProofTreeArray`): the digest-to-position map, the list of
proof trees, and the uncompressed strings for each proof tree. -/
structure ProofTreeArray : Type where
  map : List (Nat × Nat)
  trees : List ProofTree
  exprs : List (List Nat)

/-- `ProofTreeArray::default()`: the empty table. -/
def ProofTreeArray.default : ProofTreeArray :=
  ⟨[], [], []⟩

/-- `ProofTreeArray::index`: get the index of a proof tree in the array by
looking its cached hash up in the digest map. -/
def ProofTreeArray.index (a : ProofTreeArray) (tree : ProofTree) : Option Nat :=
  mapLookup tree.hash a.map

/-- The text rendering transform inlined in `build`'s miss branch: start
from one space byte, then for each input byte push it unchanged when its
high (marker) bit is clear, or push it with the marker bit cleared
followed by one space byte when the marker bit is set; finally pop the
last byte (`uexpr.pop()`). -/
def renderExpr (expr : List Nat) : List Nat :=
  (expr.foldl
    (fun uexpr chr =>
      if chr &&& 0x80 == 0 then uexpr ++ [chr] else uexpr ++ [chr &&& 0x7F, 0x20])
    [0x20]).dropLast

/-- `<ProofTreeArray as ProofBuilder>::build`: construct the candidate
tree, return the stored tree at the mapped position on a digest hit
(state unchanged), otherwise record the digest at the current length,
append the tree and the rendered expression.  The `some`/`none` layering
models the panic of `self.trees[n]` on an out-of-range position. -/
def ProofTreeArray.build (hfn : Nat → List Nat → Nat) (a : ProofTreeArray)
    (addr : Nat) (trees : List ProofTree) (expr : List Nat) :
    Option (ProofTree × ProofTreeArray) :=
  let tree := ProofTree.new hfn addr trees
  match a.index tree with
  | some n => (a.trees[n]?).map fun arc => (arc, a)
  | none =>
    some (tree,
      { map := (tree.hash, a.trees.length) :: a.map
        trees := a.trees ++ [tree]
        exprs := a.exprs ++ [renderExpr expr] })

/-- One or more `build` calls separating two table states: the
reflexive-transitive closure of single `build` steps (with the process's
fixed digest function). -/
inductive BuildTrace (hfn : Nat → List Nat → Nat) :
    ProofTreeArray → ProofTreeArray → Prop where
  | refl (a : ProofTreeArray) : BuildTrace hfn a a
  | step {a a2 a3 : ProofTreeArray} {s : Nat} {c : List ProofTree}
      {e : List Nat} {t : ProofTree} :
      BuildTrace hfn a a2 →
      ProofTreeArray.build hfn a2 s c e = some (t, a3) →
      BuildTrace hfn a a3

/-- A table state reachable in the module's lifecycle: created empty
(`ProofTreeArray::default`) and populated only by `build` calls. -/
def Reachable (hfn : Nat → List Nat → Nat) (a : ProofTreeArray) : Prop :=
  BuildTrace hfn ProofTreeArray.default a

/-- Modelled from the spec: the `Diagnostic` error type of the external
`diag` module is opaque to this core; only its identity matters. -/
def Diagnostic : Type := Nat

/-- Outcome of `ProofTreeArray::new`: the propagated engine `Diagnostic`,
the panic of `.unwrap()` on a failed final lookup, or the populated table
with the qed position. -/
inductive NewResult : Type where
  | err (d : Diagnostic) : NewResult
  | panic : NewResult
  | ok (arr : ProofTreeArray) (qed : Nat) : NewResult

/-- Modelled from the spec: the external stepwise verification engine
`verify_one` replays the statement's proof against the builder it is
handed and either returns the shared final-step node (with the table it
mutated) or fails with a `Diagnostic`.  The engine, together with the
fixed `(sset, nset, scopes, stmt)` arguments, is abstracted as a function
from the initial table to the outcome. -/
def Engine : Type :=
  ProofTreeArray → Except Diagnostic (ProofTree × ProofTreeArray)

/-- `ProofTreeArray::new`: create a proof tree array from the proof of a
single statement.  Runs the engine on a fresh default table, propagates
its `Diagnostic` unchanged on failure, and on success looks the returned
final node up in the table (`arr.index(&arc).unwrap()`), panicking on a
lookup miss, and returns the table with the qed index. -/
def ProofTreeArray.new (engine : Engine) : NewResult :=
  match engine ProofTreeArray.default with
  | .error d => .err d
  | .ok (arc, arr) =>
    match arr.index arc with
    | none => .panic
    | some qed => .ok arr qed

/-- The per-byte step of the rendering loop in `build`: an input byte with
the high (marker) bit clear is copied unchanged; a byte with the marker
bit set contributes the byte with the marker bit cleared followed by one
space byte. -/
def byteRender (chr : Nat) : List Nat :=
  if chr &&& 0x80 == 0 then [chr] else [chr &&& 0x7F, 0x20]

/-- Written from the spec's words (refinement side of the rendering
claims): the boundary-marked encoding of one token, a nonempty byte list
whose final byte carries the marker (high) bit. -/
def encodeToken : List Nat → List Nat
  | [] => []
  | [b] => [b ||| 0x80]
  | b :: b2 :: rest => b :: encodeToken (b2 :: rest)

/-- Written from the spec's words (refinement side of the rendering
claims): tokens joined by single space-byte separators, with no leading
and no trailing separator. -/
def joinTokens : List (List Nat) → List Nat
  | [] => []
  | [t] => t
  | t :: t2 :: rest => t ++ 0x20 :: joinTokens (t2 :: rest)

/-- The table stores tree `t` at position `p` under digest `d`: the digest
map sends `d` to `p` and position `p` of `trees` holds `t`. -/
def StoredAt (a : ProofTreeArray) (d p : Nat) (t : ProofTree) : Prop :=
  mapLookup d a.map = some p ∧ a.trees[p]? = some t

/-- The representation invariant of `ProofTreeArray`: `trees` and `exprs`
have equal lengths, every stored tree's digest maps back to its own
position, and every map entry points at an in-range stored tree carrying
that digest. -/
structure Inv (a : ProofTreeArray) : Prop where
  len_eq : a.trees.length = a.exprs.length
  lookup_self : ∀ p t, a.trees[p]? = some t → mapLookup t.hash a.map = some p
  lookup_sound : ∀ d p, mapLookup d a.map = some p →
    ∃ t, a.trees[p]? = some t ∧ t.hash = d

/-- The node `t` was produced by this table's own `build` operation: some
`build` call from a reachable state returned `t`, and the table `arr`
was reached from that call's post-state by further `build` calls.  This
is the engine contract of the spec. -/
def ProducedBy (hfn : Nat → List Nat → Nat) (t : ProofTree)
    (arr : ProofTreeArray) : Prop :=
  ∃ a0 s c e a1, Reachable hfn a0 ∧
    ProofTreeArray.build hfn a0 s c e = some (t, a1) ∧ BuildTrace hfn a1 arr

/-- A digest function that collides on everything, exhibiting the
behaviour of `build` when two structurally different candidates share a
digest (the spec's section 9 caveat). -/
def constDigest : Nat → List Nat → Nat :=
  fun _ _ => 0

/-- A concrete digest function for witness instantiations, injective on
the small inputs used in them. -/
def exampleDigest : Nat → List Nat → Nat :=
  fun a l => a + 10 * l.length + 100 * l.sum

/-- A concrete diagnostic value for witness instantiations. -/
def exampleDiag : Diagnostic :=
  (7 : Nat)

/-- A concrete engine that performs one `build` call and returns its node,
honouring the engine contract; used in witness instantiations. -/
def exampleEngine : Engine :=
  fun a =>
    match ProofTreeArray.build exampleDigest a 5 [] [97 ||| 0x80] with
    | some r => .ok r
    | none => .error exampleDiag

/-- A concrete engine that fails with a diagnostic; used in witness
instantiations. -/
def failingEngine : Engine :=
  fun _ => .error exampleDiag

/-! Helper lemmas about the digest map, `build`, and the invariant. -/

theorem mapLookup_cons (d k v : Nat) (m : List (Nat × Nat)) :
    mapLookup d ((k, v) :: m) = if k = d then some v else mapLookup d m :=
  rfl

theorem mapLookup_cons_fresh {d p k : Nat} {m : List (Nat × Nat)} (v : Nat)
    (hm : mapLookup d m = some p) (hk : mapLookup k m = none) :
    mapLookup d ((k, v) :: m) = some p := by
  rw [mapLookup_cons]
  split
  · rename_i hkd
    rw [hkd, hm] at hk
    exact absurd hk (by simp)
  · exact hm

theorem mapLookup_cons_self (k v : Nat) (m : List (Nat × Nat)) :
    mapLookup k ((k, v) :: m) = some v := by
  rw [mapLookup_cons]
  simp

theorem build_hit {hfn : Nat → List Nat → Nat} {a : ProofTreeArray} {s : Nat}
    {c : List ProofTree} {n : Nat} (e : List Nat)
    (hidx : a.index (ProofTree.new hfn s c) = some n) :
    ProofTreeArray.build hfn a s c e = (a.trees[n]?).map fun arc => (arc, a) := by
  simp only [ProofTreeArray.build, hidx]

theorem build_miss {hfn : Nat → List Nat → Nat} {a : ProofTreeArray} {s : Nat}
    {c : List ProofTree} (e : List Nat)
    (hidx : a.index (ProofTree.new hfn s c) = none) :
    ProofTreeArray.build hfn a s c e = some (ProofTree.new hfn s c,
      ⟨((ProofTree.new hfn s c).hash, a.trees.length) :: a.map,
        a.trees ++ [ProofTree.new hfn s c],
        a.exprs ++ [renderExpr e]⟩) := by
  simp only [ProofTreeArray.build, hidx]

theorem build_cases {hfn : Nat → List Nat → Nat} {a a2 : ProofTreeArray}
    {s : Nat} {c : List ProofTree} {e : List Nat} {t : ProofTree}
    (h : ProofTreeArray.build hfn a s c e = some (t, a2)) :
    (∃ n, a.index (ProofTree.new hfn s c) = some n ∧
      a.trees[n]? = some t ∧ a2 = a) ∨
    (a.index (ProofTree.new hfn s c) = none ∧ t = ProofTree.new hfn s c ∧
      a2 = ⟨((ProofTree.new hfn s c).hash, a.trees.length) :: a.map,
        a.trees ++ [ProofTree.new hfn s c],
        a.exprs ++ [renderExpr e]⟩) := by
  cases hidx : a.index (ProofTree.new hfn s c) with
  | some n =>
    rw [build_hit e hidx] at h
    obtain ⟨arc, harc, heq⟩ := Option.map_eq_some'.mp h
    obtain ⟨rfl, rfl⟩ := Prod.mk.injEq .. ▸ heq
    exact Or.inl ⟨n, rfl, harc, rfl⟩
  | none =>
    rw [build_miss e hidx] at h
    obtain ⟨rfl, rfl⟩ := Prod.mk.injEq .. ▸ Option.some.inj h
    exact Or.inr ⟨rfl, rfl, rfl⟩

theorem index_eq {a : ProofTreeArray} {t : ProofTree} :
    a.index t = mapLookup t.hash a.map :=
  rfl

theorem storedAt_build {hfn : Nat → List Nat → Nat} {a a2 : ProofTreeArray}
    {s : Nat} {c : List ProofTree} {e : List Nat} {t2 t : ProofTree} {d p : Nat}
    (hb : ProofTreeArray.build hfn a s c e = some (t2, a2))
    (hs : StoredAt a d p t) : StoredAt a2 d p t := by
  rcases build_cases hb with ⟨n, _, _, rfl⟩ | ⟨hidx, _, rfl⟩
  · exact hs
  · obtain ⟨hm, ht⟩ := hs
    rw [index_eq] at hidx
    refine ⟨mapLookup_cons_fresh _ hm hidx, ?_⟩
    have hp : p < a.trees.length := (List.getElem?_eq_some.mp ht).1
    rw [List.getElem?_append_left hp]
    exact ht

theorem storedAt_trace {hfn : Nat → List Nat → Nat} {a a2 : ProofTreeArray}
    {d p : Nat} {t : ProofTree} (htr : BuildTrace hfn a a2)
    (hs : StoredAt a d p t) : StoredAt a2 d p t := by
  induction htr with
  | refl => exact hs
  | step _ hb ih => exact storedAt_build hb ih

theorem inv_default : Inv ProofTreeArray.default := by
  refine ⟨rfl, ?_, ?_⟩
  · intro p t h
    simp [ProofTreeArray.default] at h
  · intro d p h
    simp [ProofTreeArray.default, mapLookup] at h

theorem inv_build {hfn : Nat → List Nat → Nat} {a a2 : ProofTreeArray}
    {s : Nat} {c : List ProofTree} {e : List Nat} {t : ProofTree}
    (hb : ProofTreeArray.build hfn a s c e = some (t, a2)) (hi : Inv a) :
    Inv a2 := by
  rcases build_cases hb with ⟨n, _, _, rfl⟩ | ⟨hidx, _, rfl⟩
  · exact hi
  · rw [index_eq] at hidx
    refine ⟨?_, ?_, ?_⟩
    · simp [hi.len_eq]
    · intro p u hu
      have hlt : p < a.trees.length + 1 := by
        have := (List.getElem?_eq_some.mp hu).1
        simpa using this
      rcases Nat.lt_succ_iff_lt_or_eq.mp hlt with hp | hp
      · rw [List.getElem?_append_left hp] at hu
        exact mapLookup_cons_fresh _ (hi.lookup_self p u hu) hidx
      · subst hp
        rw [List.getElem?_concat_length] at hu
        rw [← Option.some.inj hu]
        exact mapLookup_cons_self _ _ _
    · intro d p hd
      rw [mapLookup_cons] at hd
      split at hd
      · rename_i hk
        obtain rfl : a.trees.length = p := Option.some.inj hd
        exact ⟨ProofTree.new hfn s c, List.getElem?_concat_length .., hk⟩
      · obtain ⟨u, hu, hh⟩ := hi.lookup_sound d p hd
        have hp : p < a.trees.length := (List.getElem?_eq_some.mp hu).1
        exact ⟨u, by rw [List.getElem?_append_left hp]; exact hu, hh⟩

theorem inv_trace {hfn : Nat → List Nat → Nat} {a a2 : ProofTreeArray}
    (htr : BuildTrace hfn a a2) (hi : Inv a) : Inv a2 := by
  induction htr with
  | refl => exact hi
  | step _ hb ih => exact inv_build hb ih

theorem inv_reachable {hfn : Nat → List Nat → Nat} {a : ProofTreeArray}
    (h : Reachable hfn a) : Inv a :=
  inv_trace h inv_default

theorem build_storedAt {hfn : Nat → List Nat → Nat} {a a2 : ProofTreeArray}
    {s : Nat} {c : List ProofTree} {e : List Nat} {t : ProofTree} (hi : Inv a)
    (hb : ProofTreeArray.build hfn a s c e = some (t, a2)) :
    ∃ p, StoredAt a2 (ProofTree.new hfn s c).hash p t ∧
      t.hash = (ProofTree.new hfn s c).hash := by
  rcases build_cases hb with ⟨n, hidx, ht, rfl⟩ | ⟨hidx, rfl, rfl⟩
  · rw [index_eq] at hidx
    obtain ⟨u, hu, hh⟩ := hi.lookup_sound _ _ hidx
    have : u = t := Option.some.inj (hu ▸ ht ▸ rfl)
    subst this
    exact ⟨n, ⟨hidx, ht⟩, hh⟩
  · exact ⟨a.trees.length,
      ⟨mapLookup_cons_self _ _ _, List.getElem?_concat_length ..⟩, rfl⟩

theorem build_of_storedAt {hfn : Nat → List Nat → Nat} {a : ProofTreeArray}
    {s : Nat} {c : List ProofTree} {p : Nat} {t : ProofTree} (e : List Nat)
    (hs : StoredAt a (ProofTree.new hfn s c).hash p t) :
    ProofTreeArray.build hfn a s c e = some (t, a) := by
  obtain ⟨hm, ht⟩ := hs
  rw [build_hit e (index_eq ▸ hm), ht]
  rfl

mutual

theorem structEq_refl : ∀ t : ProofTree, structEq t t = true
  | .mk a c _ => by
    simp only [structEq, structEqList_refl c, Bool.and_true, beq_self_eq_true]

theorem structEqList_refl : ∀ l : List ProofTree, structEqList l l = true
  | [] => by simp only [structEqList]
  | t :: r => by
    simp only [structEqList, structEq_refl t, structEqList_refl r, Bool.and_self]

end

mutual

theorem wfHash_hash_eq (hfn : Nat → List Nat → Nat) :
    ∀ t1 t2, wfHash hfn t1 = true → wfHash hfn t2 = true →
      structEq t1 t2 = true → t1.hash = t2.hash
  | .mk a1 c1 h1, .mk a2 c2 h2 => fun w1 w2 he => by
    simp only [wfHash, Bool.and_eq_true, beq_iff_eq] at w1 w2
    simp only [structEq, Bool.and_eq_true, beq_iff_eq] at he
    have hmaps := wfHashList_hash_eq hfn c1 c2 w1.2 w2.2 he.2
    simp only [ProofTree.hash]
    rw [w1.1, w2.1, he.1, hmaps]

theorem wfHashList_hash_eq (hfn : Nat → List Nat → Nat) :
    ∀ l1 l2, wfHashList hfn l1 = true → wfHashList hfn l2 = true →
      structEqList l1 l2 = true →
      l1.map ProofTree.hash = l2.map ProofTree.hash
  | [], [] => fun _ _ _ => rfl
  | [], _ :: _ => fun _ _ he => by exact absurd he (by simp [structEqList])
  | _ :: _, [] => fun _ _ he => by exact absurd he (by simp [structEqList])
  | t1 :: r1, t2 :: r2 => fun w1 w2 he => by
    simp only [wfHashList, Bool.and_eq_true] at w1 w2
    simp only [structEqList, Bool.and_eq_true] at he
    simp only [List.map_cons]
    rw [wfHash_hash_eq hfn t1 t2 w1.1 w2.1 he.1,
      wfHashList_hash_eq hfn r1 r2 w1.2 w2.2 he.2]

end

/-! Helper lemmas about the rendering transform. -/

theorem renderStep_eq (acc : List Nat) (chr : Nat) :
    (if chr &&& 0x80 == 0 then acc ++ [chr] else acc ++ [chr &&& 0x7F, 0x20])
      = acc ++ byteRender chr := by
  rw [byteRender]
  split <;> rfl

theorem renderFold_eq_flatMap (expr : List Nat) : ∀ acc : List Nat,
    expr.foldl
      (fun uexpr chr =>
        if chr &&& 0x80 == 0 then uexpr ++ [chr] else uexpr ++ [chr &&& 0x7F, 0x20])
      acc
      = acc ++ expr.flatMap byteRender := by
  induction expr with
  | nil => intro acc; simp
  | cons chr rest ih =>
    intro acc
    simp only [List.foldl_cons, List.flatMap_cons]
    rw [renderStep_eq, ih, List.append_assoc]

theorem renderExpr_eq (expr : List Nat) :
    renderExpr expr = (0x20 :: expr.flatMap byteRender).dropLast := by
  rw [renderExpr, renderFold_eq_flatMap]
  rfl

theorem byte_marker_facts : ∀ b : Nat, b < 128 →
    ((b ||| 0x80) &&& 0x80 == 0) = false ∧ (b ||| 0x80) &&& 0x7F = b ∧
      (b &&& 0x80 == 0) = true := by
  decide

theorem encodeToken_flatMap (t : List Nat) (hne : t ≠ [])
    (hb : ∀ b ∈ t, b < 128) :
    (encodeToken t).flatMap byteRender = t ++ [0x20] := by
  induction t with
  | nil => exact absurd rfl hne
  | cons b rest ih =>
    cases rest with
    | nil =>
      obtain ⟨h1, h2, _⟩ := byte_marker_facts b (hb b (by simp))
      simp [encodeToken, byteRender, h1, h2]
    | cons b2 rest2 =>
      obtain ⟨_, _, h3⟩ := byte_marker_facts b (hb b (by simp))
      simp only [encodeToken, List.flatMap_cons]
      rw [ih (by simp) (fun x hx => hb x (List.mem_cons_of_mem _ hx))]
      simp [byteRender, h3]

theorem tokens_flatMap (toks : List (List Nat))
    (h : ∀ t ∈ toks, t ≠ [] ∧ ∀ b ∈ t, b < 128) :
    (toks.flatMap encodeToken).flatMap byteRender
      = toks.flatMap (fun t => t ++ [0x20]) := by
  induction toks with
  | nil => rfl
  | cons t rest ih =>
    simp only [List.flatMap_cons, List.flatMap_append]
    rw [encodeToken_flatMap t (h t (by simp)).1 (h t (by simp)).2,
      ih (fun u hu => h u (by simp [hu]))]

theorem flat_tokens_ne_nil (t2 : List Nat) (rest2 : List (List Nat)) :
    (t2 :: rest2).flatMap (fun t => t ++ [0x20]) ≠ [] := by
  intro h
  simp at h

theorem dropLast_flat_tokens (toks : List (List Nat)) (hne : toks ≠ []) :
    (0x20 :: toks.flatMap (fun t => t ++ [0x20])).dropLast
      = 0x20 :: joinTokens toks := by
  induction toks with
  | nil => exact absurd rfl hne
  | cons t rest ih =>
    cases rest with
    | nil =>
      show (0x20 :: (t ++ [0x20] ++ [])).dropLast = 0x20 :: joinTokens [t]
      rw [joinTokens, List.append_nil, ← List.cons_append, List.dropLast_concat]
    | cons t2 rest2 =>
      have hF : (t2 :: rest2).flatMap (fun t => t ++ [0x20]) ≠ [] :=
        flat_tokens_ne_nil t2 rest2
      have hdropF :
          ((t2 :: rest2).flatMap (fun t => t ++ [0x20])).dropLast
            = joinTokens (t2 :: rest2) := by
        have := ih (by simp)
        rwa [List.dropLast_cons_of_ne_nil hF, List.cons_inj_right] at this
      show ((0x20 :: (t ++ [0x20])) ++
          (t2 :: rest2).flatMap (fun t => t ++ [0x20])).dropLast
        = 0x20 :: joinTokens (t :: t2 :: rest2)
      rw [List.dropLast_append_of_ne_nil _ hF, hdropF]
      simp [joinTokens]

theorem build_fresh_length {hfn : Nat → List Nat → Nat} {a a2 : ProofTreeArray}
    {s : Nat} {c : List ProofTree} {e : List Nat} {t : ProofTree}
    (hb : ProofTreeArray.build hfn a s c e = some (t, a2))
    (hidx : a.index (ProofTree.new hfn s c) = none) :
    a2.trees.length = a.trees.length + 1 ∧
      a2.exprs.length = a.exprs.length + 1 := by
  rw [build_miss e hidx] at hb
  obtain ⟨_, rfl⟩ := Prod.mk.injEq .. ▸ Option.some.inj hb
  simp

/-! The claims. -/

/-- C1: for every statement `s`, child sequence `c` and renderings `e1`,
`e2`, two calls `build(s, c, e1)` and `build(s, c, e2)` on the same table
(any reachable table, any further `build` calls between the two calls, so
regardless of call order or how many times they are invoked) return the
same shared node, and the second call leaves the lengths of the `trees`
and `exprs` sequences unchanged (indeed the whole table unchanged). -/
theorem claim1_dedup_identity (hfn : Nat → List Nat → Nat)
    (a a1 a2 a3 : ProofTreeArray) (s : Nat) (c : List ProofTree)
    (e1 e2 : List Nat) (t1 t2 : ProofTree)
    (hr : Reachable hfn a)
    (hb1 : ProofTreeArray.build hfn a s c e1 = some (t1, a1))
    (htr : BuildTrace hfn a1 a2)
    (hb2 : ProofTreeArray.build hfn a2 s c e2 = some (t2, a3)) :
    t2 = t1 ∧ a3.trees.length = a2.trees.length ∧
      a3.exprs.length = a2.exprs.length := by
  obtain ⟨p, hs, _⟩ := build_storedAt (inv_reachable hr) hb1
  have hs2 := storedAt_trace htr hs
  have hv := build_of_storedAt e2 hs2
  rw [hb2] at hv
  obtain ⟨h1, h2⟩ := Prod.mk.injEq .. ▸ Option.some.inj hv
  exact ⟨h1, by rw [h2], by rw [h2]⟩

/-- Witness for C1: two `build` calls with statement 5 and no children on
the empty table return the same node, and the second call leaves the
table lengths unchanged. -/
theorem claim1_witness :
    ProofTree.mk 5 [] 5 = ProofTree.mk 5 [] 5 ∧
    (⟨[(5, 0)], [ProofTree.mk 5 [] 5], [[]]⟩ : ProofTreeArray).trees.length =
      (⟨[(5, 0)], [ProofTree.mk 5 [] 5], [[]]⟩ : ProofTreeArray).trees.length ∧
    (⟨[(5, 0)], [ProofTree.mk 5 [] 5], [[]]⟩ : ProofTreeArray).exprs.length =
      (⟨[(5, 0)], [ProofTree.mk 5 [] 5], [[]]⟩ : ProofTreeArray).exprs.length :=
  claim1_dedup_identity exampleDigest ProofTreeArray.default
    ⟨[(5, 0)], [ProofTree.mk 5 [] 5], [[]]⟩
    ⟨[(5, 0)], [ProofTree.mk 5 [] 5], [[]]⟩
    ⟨[(5, 0)], [ProofTree.mk 5 [] 5], [[]]⟩
    5 [] [] [97] (ProofTree.mk 5 [] 5) (ProofTree.mk 5 [] 5)
    (BuildTrace.refl _) rfl (BuildTrace.refl _) rfl

/-- C2 counterexample: with a colliding digest (`build`'s dedup lookup
consults only the cached digest, never a deep-equality check), two
structurally distinct calls `build(0, [], _)` and `build(1, [], _)` on the
same table return the same position: the second call returns the node
stored by the first and the table length stays 1 instead of increasing by
one. -/
theorem claim2_counterexample :
    structEq (ProofTree.new constDigest 0 []) (ProofTree.new constDigest 1 [])
      = false ∧
    ProofTreeArray.build constDigest ProofTreeArray.default 0 [] [] =
      some (ProofTree.mk 0 [] 0,
        ⟨[(0, 0)], [ProofTree.mk 0 [] 0], [[]]⟩) ∧
    ProofTreeArray.build constDigest
        ⟨[(0, 0)], [ProofTree.mk 0 [] 0], [[]]⟩ 1 [] [] =
      some (ProofTree.mk 0 [] 0,
        ⟨[(0, 0)], [ProofTree.mk 0 [] 0], [[]]⟩) ∧
    (⟨[(0, 0)], [ProofTree.mk 0 [] 0], [[]]⟩ : ProofTreeArray).index
        (ProofTree.new constDigest 0 []) =
      (⟨[(0, 0)], [ProofTree.mk 0 [] 0], [[]]⟩ : ProofTreeArray).index
        (ProofTree.new constDigest 1 []) ∧
    (⟨[(0, 0)], [ProofTree.mk 0 [] 0], [[]]⟩ : ProofTreeArray).trees.length
      = 1 :=
  ⟨by decide, rfl, rfl, rfl, rfl⟩

/-- C2 (amended): two `build` calls whose candidate digests differ produce
two different positions, and the table length increases by exactly one on
every call whose candidate digest is absent from the index; structural
distinctness alone suffices only in the absence of a digest collision. -/
theorem claim2_distinctness (hfn : Nat → List Nat → Nat)
    (a a1 a2 a3 : ProofTreeArray) (s1 s2 : Nat) (c1 c2 : List ProofTree)
    (e1 e2 : List Nat) (t1 t2 : ProofTree)
    (hr : Reachable hfn a)
    (hb1 : ProofTreeArray.build hfn a s1 c1 e1 = some (t1, a1))
    (htr : BuildTrace hfn a1 a2)
    (hb2 : ProofTreeArray.build hfn a2 s2 c2 e2 = some (t2, a3))
    (hd : (ProofTree.new hfn s1 c1).hash ≠ (ProofTree.new hfn s2 c2).hash) :
    (∃ p1 p2, a3.index t1 = some p1 ∧ a3.index t2 = some p2 ∧ p1 ≠ p2) ∧
    (a.index (ProofTree.new hfn s1 c1) = none →
      a1.trees.length = a.trees.length + 1) ∧
    (a2.index (ProofTree.new hfn s2 c2) = none →
      a3.trees.length = a2.trees.length + 1) := by
  have hi := inv_reachable hr
  have hi2 := inv_trace htr (inv_build hb1 hi)
  obtain ⟨p1, hs1, hh1⟩ := build_storedAt hi hb1
  obtain ⟨hm1, ht1⟩ := storedAt_build hb2 (storedAt_trace htr hs1)
  obtain ⟨p2, ⟨hm2, ht2⟩, hh2⟩ := build_storedAt hi2 hb2
  refine ⟨⟨p1, p2, ?_, ?_, ?_⟩, fun hf => (build_fresh_length hb1 hf).1,
    fun hf => (build_fresh_length hb2 hf).1⟩
  · rw [index_eq, hh1]; exact hm1
  · rw [index_eq, hh2]; exact hm2
  · intro hpp
    subst hpp
    rw [ht1] at ht2
    exact hd (hh1 ▸ hh2 ▸ congrArg ProofTree.hash (Option.some.inj ht2))

/-- Witness for C2 (amended): with an injective-on-these-inputs digest
function, building statement 0 and then statement 1 yields positions 0
and 1. -/
theorem claim2_witness :
    (∃ p1 p2,
      (⟨[(1, 1), (0, 0)],
        [ProofTree.mk 0 [] 0, ProofTree.mk 1 [] 1],
        [[], []]⟩ : ProofTreeArray).index (ProofTree.mk 0 [] 0) = some p1 ∧
      (⟨[(1, 1), (0, 0)],
        [ProofTree.mk 0 [] 0, ProofTree.mk 1 [] 1],
        [[], []]⟩ : ProofTreeArray).index (ProofTree.mk 1 [] 1) = some p2 ∧
      p1 ≠ p2) ∧
    (ProofTreeArray.default.index (ProofTree.new exampleDigest 0 []) = none →
      (⟨[(0, 0)], [ProofTree.mk 0 [] 0], [[]]⟩ : ProofTreeArray).trees.length =
        ProofTreeArray.default.trees.length + 1) ∧
    ((⟨[(0, 0)], [ProofTree.mk 0 [] 0], [[]]⟩ : ProofTreeArray).index
        (ProofTree.new exampleDigest 1 []) = none →
      (⟨[(1, 1), (0, 0)],
        [ProofTree.mk 0 [] 0, ProofTree.mk 1 [] 1],
        [[], []]⟩ : ProofTreeArray).trees.length =
        (⟨[(0, 0)], [ProofTree.mk 0 [] 0], [[]]⟩ : ProofTreeArray).trees.length
          + 1) :=
  claim2_distinctness exampleDigest ProofTreeArray.default
    ⟨[(0, 0)], [ProofTree.mk 0 [] 0], [[]]⟩
    ⟨[(0, 0)], [ProofTree.mk 0 [] 0], [[]]⟩
    ⟨[(1, 1), (0, 0)], [ProofTree.mk 0 [] 0, ProofTree.mk 1 [] 1], [[], []]⟩
    0 1 [] [] [] [] (ProofTree.mk 0 [] 0) (ProofTree.mk 1 [] 1)
    (BuildTrace.refl _) rfl (BuildTrace.refl _) rfl (by decide)

/-- C3: after any `build` call (from any table state arising in the
module's lifecycle) returning node `n`, `index` (the lookup) on `n`
returns some position `p` such that the stored tree at `p` is
structurally equal to `n`. -/
theorem claim3_lookup_consistency (hfn : Nat → List Nat → Nat)
    (a a2 : ProofTreeArray) (s : Nat) (c : List ProofTree) (e : List Nat)
    (n : ProofTree)
    (hr : Reachable hfn a)
    (hb : ProofTreeArray.build hfn a s c e = some (n, a2)) :
    ∃ p, a2.index n = some p ∧
      ∃ u, a2.trees[p]? = some u ∧ structEq u n = true := by
  obtain ⟨p, ⟨hm, ht⟩, hh⟩ := build_storedAt (inv_reachable hr) hb
  exact ⟨p, by rw [index_eq, hh]; exact hm, n, ht, structEq_refl n⟩

/-- Witness for C3: after building statement 5 on the empty table, looking
the returned node up finds position 0 holding a structurally equal tree. -/
theorem claim3_witness :
    ∃ p, (⟨[(5, 0)], [ProofTree.mk 5 [] 5], [[]]⟩ : ProofTreeArray).index
        (ProofTree.mk 5 [] 5) = some p ∧
      ∃ u, (⟨[(5, 0)], [ProofTree.mk 5 [] 5], [[]]⟩ :
          ProofTreeArray).trees[p]? = some u ∧
        structEq u (ProofTree.mk 5 [] 5) = true :=
  claim3_lookup_consistency exampleDigest ProofTreeArray.default
    ⟨[(5, 0)], [ProofTree.mk 5 [] 5], [[]]⟩ 5 [] [] (ProofTree.mk 5 [] 5)
    (BuildTrace.refl _) rfl

/-- C4: `ProofTree::new` computes the digest by feeding the statement
identifier and the children's cached digests (not the children's full
substructure) to the digest function, purely and with no failure mode
(it is a total function equal to the record of its three fields); and for
trees whose digests were computed by `new` (recursively, `wfHash`),
structural equality implies equal cached digests. -/
theorem claim4_digest_structural (hfn : Nat → List Nat → Nat) :
    (∀ a c, ProofTree.new hfn a c =
      ProofTree.mk a c (hfn a (c.map ProofTree.hash))) ∧
    (∀ t1 t2, wfHash hfn t1 = true → wfHash hfn t2 = true →
      structEq t1 t2 = true → t1.hash = t2.hash) :=
  ⟨fun _ _ => rfl, wfHash_hash_eq hfn⟩

/-- Witness for C4: two structurally equal well-formed trees with
different construction histories have equal cached digests. -/
theorem claim4_witness :
    wfHash exampleDigest
      (ProofTree.new exampleDigest 3 [ProofTree.new exampleDigest 1 []])
      = true ∧
    wfHash exampleDigest
      (ProofTree.mk 3 [ProofTree.mk 1 [] 1] 113) = true ∧
    structEq
      (ProofTree.new exampleDigest 3 [ProofTree.new exampleDigest 1 []])
      (ProofTree.mk 3 [ProofTree.mk 1 [] 1] 113) = true ∧
    (ProofTree.new exampleDigest 3
        [ProofTree.new exampleDigest 1 []]).hash =
      (ProofTree.mk 3 [ProofTree.mk 1 [] 1] 113).hash :=
  ⟨by decide, by decide, by decide,
    (claim4_digest_structural exampleDigest).2
      (ProofTree.new exampleDigest 3 [ProofTree.new exampleDigest 1 []])
      (ProofTree.mk 3 [ProofTree.mk 1 [] 1] 113)
      (by decide) (by decide) (by decide)⟩

/-- C5: the rendering transform produces one leading space byte, then for
each input byte the byte unchanged when its marker bit is clear, or the
byte with the marker bit cleared followed by one space byte when the
marker bit is set, and then removes exactly the last byte of the output;
on an input made of boundary-marked tokens this yields the
space-separated tokens with one leading space and no trailing space, and
an empty input yields an empty output. -/
theorem claim5_rendering :
    (∀ expr, renderExpr expr = (0x20 :: expr.flatMap byteRender).dropLast) ∧
    renderExpr [] = [] ∧
    (∀ toks : List (List Nat), toks ≠ [] →
      (∀ t ∈ toks, t ≠ [] ∧ ∀ b ∈ t, b < 128) →
      renderExpr (toks.flatMap encodeToken) = 0x20 :: joinTokens toks) := by
  refine ⟨renderExpr_eq, rfl, ?_⟩
  intro toks hne h
  rw [renderExpr_eq, tokens_flatMap toks h, dropLast_flat_tokens toks hne]

/-- Witness for C5: the spec's round-trip example, the tokens "ab" and
"c", renders to a leading space, then 'a' 'b', one separating space, and
'c', with no trailing space. -/
theorem claim5_witness :
    ([[97, 98], [99]] : List (List Nat)) ≠ [] ∧
    renderExpr ([[97, 98], [99]].flatMap encodeToken) =
      0x20 :: joinTokens [[97, 98], [99]] ∧
    renderExpr [97, 0xE2, 0xE3] = [0x20, 97, 98, 0x20, 99] :=
  ⟨by decide,
    claim5_rendering.2.2 [[97, 98], [99]] (by decide) (by decide),
    by decide⟩

/-- C6: for every reachable table state, `trees` and `exprs` have equal
lengths, both lengths are non-decreasing across every `build` call (and
stay equal after it), and the digest map contains exactly the digests of
the stored trees, each mapped to that tree's position in `trees`. -/
theorem claim6_invariants (hfn : Nat → List Nat → Nat) (a : ProofTreeArray)
    (hr : Reachable hfn a) :
    a.trees.length = a.exprs.length ∧
    (∀ p t, a.trees[p]? = some t → mapLookup t.hash a.map = some p) ∧
    (∀ d p, mapLookup d a.map = some p →
      ∃ t, a.trees[p]? = some t ∧ t.hash = d) ∧
    (∀ s c e t a2, ProofTreeArray.build hfn a s c e = some (t, a2) →
      a.trees.length ≤ a2.trees.length ∧ a.exprs.length ≤ a2.exprs.length ∧
      a2.trees.length = a2.exprs.length) := by
  have hi := inv_reachable hr
  refine ⟨hi.len_eq, hi.lookup_self, hi.lookup_sound, ?_⟩
  intro s c e t a2 hb
  have hi2 := inv_build hb hi
  rcases build_cases hb with ⟨n, _, _, rfl⟩ | ⟨_, _, rfl⟩
  · exact ⟨le_refl _, le_refl _, hi2.len_eq⟩
  · exact ⟨by simp, by simp, hi2.len_eq⟩

/-- Witness for C6: the invariant instantiated at a concrete one-entry
reachable table. -/
theorem claim6_witness :
    (⟨[(5, 0)], [ProofTree.mk 5 [] 5], [[]]⟩ : ProofTreeArray).trees.length =
      (⟨[(5, 0)], [ProofTree.mk 5 [] 5], [[]]⟩ : ProofTreeArray).exprs.length ∧
    mapLookup (ProofTree.mk 5 [] 5).hash [(5, 0)] = some 0 :=
  have h := claim6_invariants exampleDigest
    ⟨[(5, 0)], [ProofTree.mk 5 [] 5], [[]]⟩
    (BuildTrace.step (BuildTrace.refl ProofTreeArray.default)
      (show ProofTreeArray.build exampleDigest ProofTreeArray.default 5 [] []
        = some (ProofTree.mk 5 [] 5,
          ⟨[(5, 0)], [ProofTree.mk 5 [] 5], [[]]⟩) from rfl))
  ⟨h.1, h.2.1 0 (ProofTree.mk 5 [] 5) rfl⟩

/-- C7: a `build` call whose candidate digest is already in the index
returns the stored node at the found position, leaves the entire table
(`map`, `trees`, `exprs`) unchanged, and its `rendering_source` argument
has no effect on the result or on any table state. -/
theorem claim7_frame (hfn : Nat → List Nat → Nat) (a : ProofTreeArray)
    (s : Nat) (c : List ProofTree) (n : Nat) (e : List Nat)
    (hidx : a.index (ProofTree.new hfn s c) = some n) :
    ProofTreeArray.build hfn a s c e =
      ((a.trees[n]?).map fun arc => (arc, a)) ∧
    (∀ e2, ProofTreeArray.build hfn a s c e2 =
      ProofTreeArray.build hfn a s c e) ∧
    (∀ t a2, ProofTreeArray.build hfn a s c e = some (t, a2) →
      a2.map = a.map ∧ a2.trees = a.trees ∧ a2.exprs = a.exprs ∧
        a.trees[n]? = some t) := by
  refine ⟨build_hit e hidx,
    fun e2 => by rw [build_hit e hidx, build_hit e2 hidx], ?_⟩
  intro t a2 hb
  rw [build_hit e hidx] at hb
  obtain ⟨arc, harc, heq⟩ := Option.map_eq_some'.mp hb
  obtain ⟨rfl, rfl⟩ := Prod.mk.injEq .. ▸ heq
  exact ⟨rfl, rfl, rfl, harc⟩

/-- Witness for C7: on a table already holding the digest of statement 5,
a repeat `build` returns the stored node and two different rendering
sources give identical results. -/
theorem claim7_witness :
    ProofTreeArray.build exampleDigest
        ⟨[(5, 0)], [ProofTree.mk 5 [] 5], [[]]⟩ 5 [] [97] =
      (((⟨[(5, 0)], [ProofTree.mk 5 [] 5], [[]]⟩ :
        ProofTreeArray).trees[0]?).map
          fun arc => (arc, ⟨[(5, 0)], [ProofTree.mk 5 [] 5], [[]]⟩)) ∧
    ProofTreeArray.build exampleDigest
        ⟨[(5, 0)], [ProofTree.mk 5 [] 5], [[]]⟩ 5 [] [99] =
      ProofTreeArray.build exampleDigest
        ⟨[(5, 0)], [ProofTree.mk 5 [] 5], [[]]⟩ 5 [] [97] :=
  have h := claim7_frame exampleDigest
    ⟨[(5, 0)], [ProofTree.mk 5 [] 5], [[]]⟩ 5 [] 0 [97] rfl
  ⟨h.1, h.2.1 [99]⟩

/-- C8: when the external verification engine fails, `ProofTreeArray::new`
returns that engine's `Diagnostic` unchanged; on success it returns the
populated table paired with the position obtained by looking the engine's
returned final node up in that table. -/
theorem claim8_error_propagation (engine : Engine) :
    (∀ d : Diagnostic, engine ProofTreeArray.default = .error d →
      ProofTreeArray.new engine = NewResult.err d) ∧
    (∀ t arr p, engine ProofTreeArray.default = .ok (t, arr) →
      ProofTreeArray.index arr t = some p →
      ProofTreeArray.new engine = NewResult.ok arr p) := by
  constructor
  · intro d h
    simp only [ProofTreeArray.new, h]
  · intro t arr p h hidx
    simp only [ProofTreeArray.new, h, hidx]

/-- Witness for C8: a failing engine's diagnostic is returned unchanged,
and a succeeding engine's table and qed position are returned. -/
theorem claim8_witness :
    ProofTreeArray.new failingEngine = NewResult.err exampleDiag ∧
    ProofTreeArray.new exampleEngine =
      NewResult.ok ⟨[(5, 0)], [ProofTree.mk 5 [] 5], [[0x20, 97]]⟩ 0 :=
  ⟨(claim8_error_propagation failingEngine).1 exampleDiag rfl,
    (claim8_error_propagation exampleEngine).2 (ProofTree.mk 5 [] 5)
      ⟨[(5, 0)], [ProofTree.mk 5 [] 5], [[0x20, 97]]⟩ 0 rfl rfl⟩

/-- C9: if the engine's returned final node was produced via this table's
own `build` operation, the lookup performed by `ProofTreeArray::new` on
that node succeeds, so the unwrap (the fatal-assertion `panic` branch) is
unreachable and the call returns the table with a qed position. -/
theorem claim9_unwrap_safe (hfn : Nat → List Nat → Nat) (engine : Engine)
    (t : ProofTree) (arr : ProofTreeArray)
    (he : engine ProofTreeArray.default = .ok (t, arr))
    (hp : ProducedBy hfn t arr) :
    (∃ p, ProofTreeArray.index arr t = some p) ∧
    ProofTreeArray.new engine ≠ NewResult.panic ∧
    (∃ p, ProofTreeArray.new engine = NewResult.ok arr p) := by
  obtain ⟨a0, s, c, e, a1, hr, hb, htr⟩ := hp
  obtain ⟨p, hs, hh⟩ := build_storedAt (inv_reachable hr) hb
  obtain ⟨hm, _⟩ := storedAt_trace htr hs
  have hidx : ProofTreeArray.index arr t = some p := by
    rw [index_eq, hh]; exact hm
  have hnew : ProofTreeArray.new engine = NewResult.ok arr p := by
    simp only [ProofTreeArray.new, he, hidx]
  exact ⟨⟨p, hidx⟩, by rw [hnew]; exact fun hc => NewResult.noConfusion hc,
    ⟨p, hnew⟩⟩

/-- Witness for C9: with an engine whose returned node came from the
table's own single `build` call, `new` does not hit the panic branch. -/
theorem claim9_witness :
    ProofTreeArray.new exampleEngine ≠ NewResult.panic ∧
    (∃ p, ProofTreeArray.new exampleEngine =
      NewResult.ok ⟨[(5, 0)], [ProofTree.mk 5 [] 5], [[0x20, 97]]⟩ p) :=
  have h := claim9_unwrap_safe exampleDigest exampleEngine
    (ProofTree.mk 5 [] 5) ⟨[(5, 0)], [ProofTree.mk 5 [] 5], [[0x20, 97]]⟩
    rfl
    ⟨ProofTreeArray.default, 5, [], [0xE1],
      ⟨[(5, 0)], [ProofTree.mk 5 [] 5], [[0x20, 97]]⟩,
      BuildTrace.refl _, rfl, BuildTrace.refl _⟩
  ⟨h.2.1, h.2.2⟩

/-- C10: for every non-empty rendering source whose last byte has its
marker bit clear (the input ends mid-token), the rendering transform's
unconditional trailing pop removes that final content byte itself: the
output plus that byte equals the un-popped transform of the whole input. -/
theorem claim10_trailing_pop (expr : List Nat) (h : expr ≠ [])
    (hm : expr.getLast h &&& 0x80 = 0) :
    renderExpr expr ++ [expr.getLast h] = 0x20 :: expr.flatMap byteRender := by
  rcases List.eq_nil_or_concat expr with rfl | ⟨ys, b, rfl⟩
  · exact absurd rfl h
  · have hlast : (ys.concat b).getLast h = b := by
      simp
    rw [hlast] at hm ⊢
    have hbr : byteRender b = [b] := by
      rw [byteRender]
      simp [hm]
    rw [List.concat_eq_append, renderExpr_eq, List.flatMap_append]
    simp only [List.flatMap_cons, List.flatMap_nil, List.append_nil, hbr]
    rw [show (0x20 : Nat) :: (ys.flatMap byteRender ++ [b]) =
        (0x20 :: ys.flatMap byteRender) ++ [b] from rfl,
      List.dropLast_concat]

/-- Witness for C10: the input with tokens 'a' then an unterminated 'b'
renders with the 'b' itself removed by the trailing pop. -/
theorem claim10_witness :
    renderExpr [0xE1, 98] ++ [98] = 0x20 :: [0xE1, 98].flatMap byteRender ∧
    renderExpr [0xE1, 98] = [0x20, 97, 0x20] := by
  constructor
  · have h := claim10_trailing_pop [0xE1, 98] (by simp) (by decide)
    simpa using h
  · decide

end Smetamath
